import Mathlib

/-!
# pb: listing descriptors and decoding messages

A shallow embedding of `main.go` of the `pb` command line tool.

The program is command dispatch around three outside collaborators: the proto
parser, the message registry and the binary / JSON codecs.  Their code is not
part of the repository, so they enter the embedding as the fields of `Lib`;
the functions `initMessageRegistry`, `list` and `decode` are translated from
`main.go` line by line on top of them.  Process state is passed explicitly:
`World` carries standard input and standard output, `Globals` the two package
level variables `fileDescs` and `msgReg`.
-/

namespace Pb

/-! ## Data model -/

/-- One octet of standard input. -/
abbrev Byte := Fin 256

/-- Go `error` values that `main.go` can return: an error handed out by a
library call, `errors.New msg` and `errors.Wrap cause msg`. -/
inductive PbError where
  | ext (text : String)
  | new (msg : String)
  | wrap (cause : PbError) (msg : String)
  deriving DecidableEq, Repr

/-- The text of an error, `err.Error()`; `errors.Wrap` renders as
`msg: cause`. -/
def PbError.Error : PbError → String
  | .ext t => t
  | .new m => m
  | .wrap c m => m ++ ": " ++ c.Error

/-- A field of a message type: declared name, JSON name, field number and
whether it is a proto2 `required` field. -/
structure FieldDescriptor where
  name : String
  jsonName : String
  number : Nat
  required : Bool := false
  deriving DecidableEq, Repr

/-- A message type with its fully-qualified name, fields and nested message
types (`desc.MessageDescriptor`). -/
inductive MessageDescriptor where
  | mk (fullyQualifiedName : String) (fields : List FieldDescriptor)
      (nestedMessageTypes : List MessageDescriptor)
  deriving Repr

/-- The accessor `md.GetFullyQualifiedName()`. -/
def MessageDescriptor.GetFullyQualifiedName : MessageDescriptor → String
  | .mk n _ _ => n

/-- The accessor `md.GetFields()`. -/
def MessageDescriptor.GetFields : MessageDescriptor → List FieldDescriptor
  | .mk _ fs _ => fs

/-- The accessor `md.GetNestedMessageTypes()`. -/
def MessageDescriptor.GetNestedMessageTypes : MessageDescriptor → List MessageDescriptor
  | .mk _ _ ns => ns

/-- A service declaration (`desc.ServiceDescriptor`). -/
structure ServiceDescriptor where
  fullyQualifiedName : String
  deriving DecidableEq, Repr

/-- The accessor `svc.GetFullyQualifiedName()`. -/
def ServiceDescriptor.GetFullyQualifiedName (s : ServiceDescriptor) : String :=
  s.fullyQualifiedName

/-- A parsed schema file (`desc.FileDescriptor`): its name, its top-level
message types in declaration order and its services in declaration order. -/
structure FileDescriptor where
  name : String
  messageTypes : List MessageDescriptor
  services : List ServiceDescriptor
  deriving Repr

/-- The accessor `fd.GetFullyQualifiedName()`: for a file this is its name. -/
def FileDescriptor.GetFullyQualifiedName (fd : FileDescriptor) : String := fd.name

/-- The accessor `fd.GetMessageTypes()`: the top-level message types. -/
def FileDescriptor.GetMessageTypes (fd : FileDescriptor) : List MessageDescriptor :=
  fd.messageTypes

/-- The accessor `fd.GetServices()`. -/
def FileDescriptor.GetServices (fd : FileDescriptor) : List ServiceDescriptor :=
  fd.services

/-- The process streams the commands touch: what is still unread on standard
input and everything written to standard output so far.  Standard input is a
finite byte string followed by end of file. -/
structure World where
  stdin : List Byte
  stdout : String
  deriving DecidableEq, Repr

/-- The call `fmt.Println(s)`: the text followed by a newline goes to standard output. -/
def Println (s : String) (w : World) : World :=
  { w with stdout := w.stdout ++ s ++ "\n" }

/-! ## `list` -/

/-- Go `strings.ToLower` on one rune, as far as comparison with ASCII text
goes: `A` to `Z` are folded, and so are the two further runes that the Unicode
case tables fold to an ASCII letter, U+0130 to `i` and U+212A to `k`.  Every
other rune from `0x80` on folds to a rune outside ASCII and is left as it is. -/
def toLowerRune (c : Char) : Char :=
  if 65 ≤ c.toNat ∧ c.toNat ≤ 90 then Char.ofNat (c.toNat + 32)
  else if c.toNat = 304 then 'i'
  else if c.toNat = 8490 then 'k'
  else c

/-- Go `strings.ToLower`, rune by rune (see `toLowerRune`): the result equals
an ASCII text exactly when the result in Go does. -/
def ToLower (s : String) : String := ⟨s.data.map toLowerRune⟩

/-- The assignment `m[a] = struct{}{}` on a set of strings: the key set of the Go map, kept
as a list without repetition. -/
def mapInsert (m : List String) (a : String) : List String :=
  if a ∈ m then m else m ++ [a]

/-- Lines 73-76: the set `m` built from the arguments. -/
def argSet (args : List String) : List String :=
  args.foldl mapInsert []

/-- The body of the `switch` of lines 79-96 for one key of `m`. -/
def listKey (fileDescs : List FileDescriptor) (k : String) (w : World) : World :=
  let l := ToLower k
  if l = "file" ∨ l = "files" then
    fileDescs.foldl (fun w fd => Println fd.GetFullyQualifiedName w) w
  else if l = "msg" ∨ l = "message" ∨ l = "messages" then
    fileDescs.foldl
      (fun w fd => fd.GetMessageTypes.foldl (fun w mt => Println mt.GetFullyQualifiedName w) w) w
  else if l = "svc" ∨ l = "services" then
    fileDescs.foldl
      (fun w fd => fd.GetServices.foldl (fun w svc => Println svc.GetFullyQualifiedName w) w) w
  else w

/-- Go leaves the order of `for k := range m` open: a run of the loop visits
the keys of `m` in some order, each key once.  `range` is that choice. -/
def GoRange (range : List String → List String) : Prop :=
  ∀ ks, (range ks).Perm ks

/-- The function `list` of `main.go`.  `range` is the order in which the Go
runtime hands out the keys of the map `m`. -/
def list (fileDescs : List FileDescriptor) (range : List String → List String)
    (args : List String) (w : World) : Option PbError × World :=
  if args.length = 0 then
    (some (.new "specify one of \"files\", \"messages\" or \"services\""), w)
  else
    let m := argSet args
    (none, (range m).foldl (fun w k => listKey fileDescs k w) w)

/-! ## The outside collaborators -/

/-- The fields of `jsonpb.Marshaler` that select the output format.  A struct
literal leaves every field it does not mention at its zero value. -/
structure Marshaler where
  OrigName : Bool := false
  EnumsAsInts : Bool := false
  EmitDefaults : Bool := false
  Indent : String := ""
  deriving DecidableEq, Repr

/-- The library calls of `main.go`, as they are used there.
* `ParseFiles importPaths files` is `(&protoparse.Parser{ImportPaths}).ParseFiles(files...)`;
* `NewMessageRegistryWithDefaults`, `AddFile`, `Resolve` are the calls on
  `msgregistry.MessageRegistry`;
* `Base64ReadAll stdin` is `ioutil.ReadAll(base64.NewDecoder(base64.StdEncoding, os.Stdin))`;
* `Unmarshal` is `proto.Unmarshal`, returning the populated message;
* `Marshal ms msg` is `ms.Marshal(os.Stdout, msg)`: the text it wrote to the
  writer and the error it returned, if any. -/
structure Lib where
  Registry : Type
  Message : Type
  ParseFiles : List String → List String → Except String (List FileDescriptor)
  NewMessageRegistryWithDefaults : Registry
  AddFile : Registry → String → FileDescriptor → Registry
  Resolve : Registry → String → Except String Message
  Base64ReadAll : List Byte → Except String (List Byte)
  Unmarshal : List Byte → Message → Except String Message
  Marshal : Marshaler → Message → String × Option String

/-- The package-level variables `fileDescs` and `msgReg` once
`initMessageRegistry` has run.  cobra runs a subcommand only after its
`PersistentPreRunE` returned nil, so `list` and `decode` see no other state. -/
structure Globals (L : Lib) where
  fileDescs : List FileDescriptor
  msgReg : L.Registry

/-! ## `initMessageRegistry` and `decode` -/

/-- The function `initMessageRegistry` of `main.go`: parse, keep the
descriptors, and add every parsed file to a registry created with defaults. -/
def initMessageRegistry (L : Lib) (importPaths importFiles : List String) :
    Except PbError (Globals L) :=
  match L.ParseFiles importPaths importFiles with
  | .error e => .error (.wrap (.ext e) "failed to parse proto files")
  | .ok fds =>
    .ok ⟨fds, fds.foldl (fun r fd => L.AddFile r "" fd) L.NewMessageRegistryWithDefaults⟩

/-- Lines 122-127: what `ioutil.ReadAll(r)` returns, `r` being standard input
itself or, when the flag is exactly `base64`, the base64 decoder around it. -/
def readInput (L : Lib) (inFlag : String) (stdin : List Byte) : Except String (List Byte) :=
  if inFlag = "base64" then L.Base64ReadAll stdin else .ok stdin

/-- The marshaler of lines 135-137: only `Indent` is set. -/
def decodeMarshaler : Marshaler := { Indent := "  " }

/-- The function `decode` of `main.go`.  `inFlag` is the value of the `--in`
flag (`bin` when the flag is not given).  `ReadAll` reads standard input to
its end, so nothing is left unread afterwards; when the base64 reader gives up
on malformed text the rest counts as read as well, the process exits without
looking at it. -/
def decode (L : Lib) (g : Globals L) (inFlag : String) (args : List String) (w : World) :
    Option PbError × World :=
  match args with
  | [] => (some (.new "specify fully-qualified message name"), w)
  | name :: _ =>
    match L.Resolve g.msgReg name with
    | .error e => (some (.wrap (.ext e) "failed to resolve message"), w)
    | .ok msg =>
      let w1 : World := { w with stdin := [] }
      match readInput L inFlag w.stdin with
      | .error e =>
        (some (.wrap (.ext e) "failed to read base64-encoded input from stdin"), w1)
      | .ok input =>
        match L.Unmarshal input msg with
        | .error e => (some (.wrap (.ext e) "failed to unmarshal message"), w1)
        | .ok msg1 =>
          let out := L.Marshal decodeMarshaler msg1
          let w2 : World := { w1 with stdout := w1.stdout ++ out.1 }
          match out.2 with
          | some e => (some (.wrap (.ext e) "failed to marshal message"), w2)
          | none => (none, Println "" w2)

/-! ## Base64 -/

/-- The character of the standard base64 alphabet (RFC 4648, table 1) for a
six-bit value, as an ASCII code: `A-Z`, `a-z`, `0-9`, `+`, `/`. -/
def b64Char (n : Nat) : Nat :=
  if n < 26 then 65 + n
  else if n < 52 then 71 + n
  else if n < 62 then n - 4
  else if n = 62 then 43
  else 47

/-- The six-bit value of an alphabet character; `none` outside the alphabet. -/
def b64Value (c : Nat) : Option Nat :=
  if 65 ≤ c ∧ c ≤ 90 then some (c - 65)
  else if 97 ≤ c ∧ c ≤ 122 then some (c - 71)
  else if 48 ≤ c ∧ c ≤ 57 then some (c + 4)
  else if c = 43 then some 62
  else if c = 47 then some 63
  else none

/-- Padded base64 of a list of octet values, three octets to four characters,
the last group filled up with `=` (code 61). -/
def encodeCodes : List Nat → List Nat
  | [] => []
  | [a] => [b64Char (a / 4), b64Char (a % 4 * 16), 61, 61]
  | [a, b] => [b64Char (a / 4), b64Char (a % 4 * 16 + b / 16), b64Char (b % 16 * 4), 61]
  | a :: b :: c :: rest =>
    b64Char (a / 4) :: b64Char (a % 4 * 16 + b / 16) :: b64Char (b % 16 * 4 + c / 64)
      :: b64Char (c % 64) :: encodeCodes rest

/-- The standard padded base64 encoding of a byte string
(`base64.StdEncoding.EncodeToString`), as the bytes of its ASCII text. -/
def stdEncode (x : List Byte) : List Byte :=
  (encodeCodes (x.map Fin.val)).map (Fin.ofNat)

/-- Decoding of a newline-free base64 text, four characters at a time.  A
group may end in `=` or `==` only when it is the last one. -/
def decodeCodes : List Nat → Except String (List Nat)
  | a :: b :: c :: d :: rest =>
    match b64Value a, b64Value b with
    | some va, some vb =>
      if c = 61 ∧ d = 61 ∧ rest = [] then .ok [(va * 4 + vb / 16) % 256]
      else match b64Value c with
        | none => .error "illegal base64 data"
        | some vc =>
          if d = 61 ∧ rest = [] then
            .ok [(va * 4 + vb / 16) % 256, (vb * 16 + vc / 4) % 256]
          else match b64Value d with
            | none => .error "illegal base64 data"
            | some vd =>
              match decodeCodes rest with
              | .error e => .error e
              | .ok out =>
                .ok ((va * 4 + vb / 16) % 256 :: (vb * 16 + vc / 4) % 256
                  :: (vc * 64 + vd) % 256 :: out)
    | _, _ => .error "illegal base64 data"
  | [] => .ok []
  | _ => .error "unexpected EOF"

/-- A base64 reader over the whole of standard input: carriage returns and
line feeds are skipped, the rest is decoded. -/
def refBase64ReadAll (stdin : List Byte) : Except String (List Byte) :=
  match decodeCodes ((stdin.map Fin.val).filter (fun c => c ≠ 10 ∧ c ≠ 13)) with
  | .error e => .error e
  | .ok out => .ok (out.map Fin.ofNat)

/-! ## A reference instance of the collaborators

A small, executable instance of `Lib`, used to run `list` and `decode` on
concrete inputs.  Schema files are proto2 files whose fields are all `int32`.
The registry is created with defaults; of the message types linked into the
program it knows one, `google.protobuf.Duration`.  A message of a declared
type is a dynamic message, read by the codec of the reflection library; a
message of the linked type is the generated one, read by the codec of the
protobuf runtime and written by jsonpb as a well-known type.  Group-encoded
fields are not read. -/

mutual
/-- A message type followed by everything nested in it, in declaration order. -/
def MessageDescriptor.withNested : MessageDescriptor → List MessageDescriptor
  | .mk n fs ns => .mk n fs ns :: allMessageTypes ns
/-- All message types of a list of declarations, nested ones included. -/
def allMessageTypes : List MessageDescriptor → List MessageDescriptor
  | [] => []
  | md :: rest => md.withNested ++ allMessageTypes rest
end

/-- The fully-qualified names of all message types a file declares, nested
ones included. -/
def declaredNames (fd : FileDescriptor) : List String :=
  (allMessageTypes fd.messageTypes).map MessageDescriptor.GetFullyQualifiedName

/-- A registry: whether it falls back on the message types linked into the
program, and the message types added to it, newest first. -/
structure RefRegistry where
  includeDefault : Bool
  types : List (String × MessageDescriptor)

/-- A message instance: a dynamic message with its type and the values read
for its fields (field number and value, in the order read), or the generated
`google.protobuf.Duration` with its seconds and nanos. -/
inductive RefMessage where
  | dynamic (desc : MessageDescriptor) (values : List (Nat × Int))
  | duration (seconds nanos : Int)

/-- The name of the message type linked into the program. -/
def durationName : String := "google.protobuf.Duration"

/-- The message factory: an empty message of the generated type when the name
is that of the linked type, an empty dynamic message otherwise. -/
def newMessage (md : MessageDescriptor) : RefMessage :=
  if md.GetFullyQualifiedName = durationName then .duration 0 0 else .dynamic md []

/-- Adding a file registers each of its message types, nested ones included,
under its fully-qualified name; a later entry shadows an earlier one. -/
def refAddFile (r : RefRegistry) (_baseUrl : String) (fd : FileDescriptor) : RefRegistry :=
  { r with types :=
      ((allMessageTypes fd.messageTypes).map
        (fun md => (md.GetFullyQualifiedName, md))).reverse ++ r.types }

/-- Resolving looks among the added types first, then, in a registry with
defaults, among the linked types, and returns an empty message. -/
def refResolve (r : RefRegistry) (name : String) : Except String RefMessage :=
  match r.types.lookup name with
  | some md => .ok (newMessage md)
  | none =>
    if r.includeDefault = true ∧ name = durationName then .ok (.duration 0 0)
    else .error ("unknown message type: " ++ name)

/-- Parsing against a fixed collection of schema files: each requested name
has to be one of them. -/
def refParseFiles (files : List FileDescriptor) (_importPaths : List String) :
    List String → Except String (List FileDescriptor)
  | [] => .ok []
  | n :: rest =>
    match files.find? (fun fd => fd.name = n) with
    | none => .error ("open " ++ n ++ ": no such file")
    | some fd =>
      match refParseFiles files _importPaths rest with
      | .error e => .error e
      | .ok fds => .ok (fd :: fds)

/-- The signed reading of a 64-bit varint payload. -/
def int64OfVarint (v : Nat) : Int :=
  let u : Nat := v % 2 ^ 64
  if u < 2 ^ 63 then Int.ofNat u else Int.ofNat u - 2 ^ 64

/-- The low 32 bits of a varint payload, read as two-complement. -/
def int32OfVarint (v : Nat) : Int :=
  let u : Nat := v % 2 ^ 32
  if u < 2 ^ 31 then Int.ofNat u else Int.ofNat u - 2 ^ 32

/-- A field value as it stands on the wire, by wire type (0, 1, 2 and 5). -/
inductive WireValue where
  | varint (v : Nat)
  | fixed64 (v : Nat)
  | bytes (b : List Byte)
  | fixed32 (v : Nat)

/-- Where the wire reader stands between two bytes: in a tag, in a varint
value, in a fixed-width value of `size` bytes, in the length of a
length-delimited value or in its payload.  `n` counts the bytes of the current
number read so far, `acc` is their value. -/
inductive WireState where
  | tag (n acc : Nat)
  | varint (field n acc : Nat)
  | fixed (field size n acc : Nat)
  | len (field n acc : Nat)
  | bytes (field remaining : Nat) (acc : List Byte)

/-- The outcome of one more byte of a varint. -/
inductive VarintStep where
  | more (n acc : Nat)
  | done (v : Nat)
  | overflow

/-- One byte of a varint.  A varint has at most ten bytes and its value is
taken modulo `2 ^ 64`; the strict reader also refuses a tenth byte above 1. -/
def varintStep (strict : Bool) (n acc : Nat) (b : Byte) : VarintStep :=
  let acc1 := acc + b.val % 128 * 128 ^ n
  if 128 ≤ b.val then (if n = 9 then .overflow else .more (n + 1) acc1)
  else if strict = true ∧ n = 9 ∧ 1 < b.val then .overflow
  else .done (acc1 % 2 ^ 64)

/-- A wire reader: `strict` is the reader of the protobuf runtime (field
numbers from 1 to `2 ^ 29 - 1`), otherwise the reader of the reflection
library (field numbers up to `2 ^ 31 - 1`); `accept` turns a field found on
the wire into a value of the message, drops it, or refuses it. -/
structure WireReader where
  strict : Bool
  accept : Nat → WireValue → Except String (Option (Nat × Int))

/-- A field has been read: it is handed to `accept` before reading goes on. -/
def WireReader.emit (rd : WireReader) (field : Nat) (wv : WireValue)
    (more : Except String (List (Nat × Int))) : Except String (List (Nat × Int)) :=
  match rd.accept field wv with
  | .error e => .error e
  | .ok none => more
  | .ok (some p) =>
    match more with
    | .error e => .error e
    | .ok vs => .ok (p :: vs)

/-- Whether a field number is one the reader admits. -/
def WireReader.admits (rd : WireReader) (field : Nat) : Bool :=
  if rd.strict then decide (1 ≤ field ∧ field ≤ 2 ^ 29 - 1) else decide (field ≤ 2 ^ 31 - 1)

/-- The wire-format reader, one byte at a time: the values of the fields
`accept` keeps, in the order read. -/
def readWire (rd : WireReader) : WireState → List Byte → Except String (List (Nat × Int))
  | st, [] =>
    match st with
    | .tag 0 _ => .ok []
    | _ => .error "unexpected EOF"
  | st, b :: rest =>
    match st with
    | .tag n acc =>
      match varintStep rd.strict n acc b with
      | .overflow => .error "proto: integer overflow"
      | .more n1 acc1 => readWire rd (.tag n1 acc1) rest
      | .done v =>
        if rd.admits (v / 8) = false then .error "proto: illegal tag"
        else if v % 8 = 0 then readWire rd (.varint (v / 8) 0 0) rest
        else if v % 8 = 1 then readWire rd (.fixed (v / 8) 8 0 0) rest
        else if v % 8 = 2 then readWire rd (.len (v / 8) 0 0) rest
        else if v % 8 = 5 then readWire rd (.fixed (v / 8) 4 0 0) rest
        else .error "proto: bad wiretype"
    | .varint field n acc =>
      match varintStep rd.strict n acc b with
      | .overflow => .error "proto: integer overflow"
      | .more n1 acc1 => readWire rd (.varint field n1 acc1) rest
      | .done v => rd.emit field (.varint v) (readWire rd (.tag 0 0) rest)
    | .fixed field size n acc =>
      let acc1 := acc + b.val * 256 ^ n
      if n + 1 < size then readWire rd (.fixed field size (n + 1) acc1) rest
      else
        rd.emit field (if size = 8 then .fixed64 acc1 else .fixed32 acc1)
          (readWire rd (.tag 0 0) rest)
    | .len field n acc =>
      match varintStep rd.strict n acc b with
      | .overflow => .error "proto: integer overflow"
      | .more n1 acc1 => readWire rd (.len field n1 acc1) rest
      | .done v =>
        if v = 0 then rd.emit field (.bytes []) (readWire rd (.tag 0 0) rest)
        else readWire rd (.bytes field v []) rest
    | .bytes field remaining acc =>
      if 1 < remaining then readWire rd (.bytes field (remaining - 1) (b :: acc)) rest
      else rd.emit field (.bytes (b :: acc).reverse) (readWire rd (.tag 0 0) rest)

/-- An `int32` field of a dynamic message takes a number only when it lies in
the range of `int32`. -/
def int32Checked (v : Nat) : Except String Int :=
  let s := int64OfVarint v
  if -(2 ^ 31) ≤ s ∧ s < 2 ^ 31 then .ok s else .error "proto: integer overflow"

/-- A length-delimited payload for an `int32` field is read as packed varints,
of which the last one counts. -/
def readPacked (n acc : Nat) (last : Option Int) : List Byte → Except String (Option Int)
  | [] => if n = 0 then .ok last else .error "unexpected EOF"
  | b :: rest =>
    match varintStep false n acc b with
    | .overflow => .error "proto: integer overflow"
    | .more n1 acc1 => readPacked n1 acc1 last rest
    | .done v =>
      match int32Checked v with
      | .error e => .error e
      | .ok s => readPacked 0 0 (some s) rest

/-- What the dynamic message does with a field found on the wire: a field the
type does not declare is set aside, a declared one takes the number. -/
def dynamicAccept (desc : MessageDescriptor) (field : Nat) (wv : WireValue) :
    Except String (Option (Nat × Int)) :=
  match desc.GetFields.find? (fun fd => fd.number = field) with
  | none => .ok none
  | some _ =>
    match wv with
    | .bytes b =>
      match readPacked 0 0 none b with
      | .error e => .error e
      | .ok none => .ok none
      | .ok (some s) => .ok (some (field, s))
    | .varint v | .fixed64 v | .fixed32 v =>
      match int32Checked v with
      | .error e => .error e
      | .ok s => .ok (some (field, s))

/-- What the generated `Duration` does with a field found on the wire:
`seconds` is field 1, an `int64`, and `nanos` field 2, an `int32`, both
varints; anything else is set aside. -/
def durationAccept (field : Nat) (wv : WireValue) : Except String (Option (Nat × Int)) :=
  match field, wv with
  | 1, .varint v => .ok (some (1, int64OfVarint v))
  | 2, .varint v => .ok (some (2, int32OfVarint v))
  | _, _ => .ok none

/-- The value of a field: the last one read for its number. -/
def fieldValue (values : List (Nat × Int)) (number : Nat) : Option Int :=
  values.reverse.lookup number

/-- The names of the required fields that have no value. -/
def missingRequired (desc : MessageDescriptor) (values : List (Nat × Int)) : List String :=
  (desc.GetFields.filter fun fd =>
    fd.required ∧ fieldValue values fd.number = none).map FieldDescriptor.name

/-- Unmarshaling resets the message and sets the fields found in the input; a
dynamic message is then checked for its required fields. -/
def refUnmarshal (input : List Byte) (msg : RefMessage) : Except String RefMessage :=
  match msg with
  | .dynamic desc _ =>
    match readWire ⟨false, dynamicAccept desc⟩ (.tag 0 0) input with
    | .error e => .error e
    | .ok vs =>
      if missingRequired desc vs = [] then .ok (.dynamic desc vs)
      else .error ("some required fields missing: " ++ ", ".intercalate (missingRequired desc vs))
  | .duration _ _ =>
    match readWire ⟨true, durationAccept⟩ (.tag 0 0) input with
    | .error e => .error e
    | .ok vs => .ok (.duration ((fieldValue vs 1).getD 0) ((fieldValue vs 2).getD 0))

/-- The key a field is written under: its declared name when `OrigName` is
set, its JSON name otherwise. -/
def jsonKey (ms : Marshaler) (fd : FieldDescriptor) : String :=
  if ms.OrigName then fd.name else fd.jsonName

/-- Insertion into an ascending list of field numbers without repetition. -/
def insertTag (t : Nat) : List Nat → List Nat
  | [] => [t]
  | x :: xs => if t < x then t :: x :: xs else if t = x then x :: xs else x :: insertTag t xs

/-- The field numbers a dynamic message writes, in ascending order: those that
have a value, and with `EmitDefaults` those of all declared fields. -/
def jsonTags (ms : Marshaler) (desc : MessageDescriptor) (values : List (Nat × Int)) :
    List Nat :=
  let set := values.foldl (fun acc p => insertTag p.1 acc) []
  if ms.EmitDefaults then desc.GetFields.foldl (fun acc fd => insertTag fd.number acc) set
  else set

/-- The members of the JSON object of a dynamic message. -/
def jsonMembers (ms : Marshaler) (desc : MessageDescriptor) (values : List (Nat × Int)) :
    List String :=
  (jsonTags ms desc values).filterMap fun t =>
    match desc.GetFields.find? (fun fd => fd.number = t) with
    | none => none
    | some fd =>
      some ("\"" ++ jsonKey ms fd ++ (if ms.Indent = "" then "\":" else "\": ")
        ++ toString ((fieldValue values t).getD 0))

/-- A natural number in nine digits, as `%09d` prints it. -/
def pad9 (n : Nat) : String :=
  String.mk (List.replicate (9 - (toString n).length) '0') ++ toString n

/-- Go `strings.TrimSuffix`. -/
def trimSuffix (x suffix : String) : String :=
  if suffix.data.isSuffixOf x.data then
    ⟨x.data.take (x.data.length - suffix.data.length)⟩
  else x

/-- The JSON form of a `Duration`, as jsonpb writes this well-known type: a
string of seconds with 0, 3, 6 or 9 fractional digits; values out of range or
of mixed sign are refused. -/
def durationJSON (s ns : Int) : Except String String :=
  if s < -315576000000 ∨ 315576000000 < s then
    .error ("seconds out of range " ++ toString s)
  else if ns ≤ -1000000000 ∨ 1000000000 ≤ ns then
    .error "ns out of range (-1000000000, 1000000000)"
  else if (0 < s ∧ ns < 0) ∨ (s < 0 ∧ 0 < ns) then
    .error "signs of seconds and nanos do not match"
  else
    let sign := if s < 0 ∨ ns < 0 then "-" else ""
    let x := sign ++ toString s.natAbs ++ "." ++ pad9 ns.natAbs
    .ok ("\"" ++ trimSuffix (trimSuffix (trimSuffix x "000") "000") ".000" ++ "s\"")

/-- The JSON writer.  A dynamic message is written as an object, one member
per line when an indent is configured; the generated `Duration` is written in
its string form, and nothing is written when that form is refused. -/
def refMarshal (ms : Marshaler) (msg : RefMessage) : String × Option String :=
  match msg with
  | .dynamic desc values =>
    if ms.Indent = "" then
      ("\x7b" ++ ",".intercalate (jsonMembers ms desc values) ++ "\x7d", none)
    else
      ("\x7b\n" ++ ms.Indent
        ++ (",\n" ++ ms.Indent).intercalate (jsonMembers ms desc values) ++ "\n\x7d", none)
  | .duration s ns =>
    match durationJSON s ns with
    | .error e => ("", some e)
    | .ok text => (text, none)

/-- The reference collaborators over a fixed collection of schema files. -/
def refLib (files : List FileDescriptor) : Lib where
  Registry := RefRegistry
  Message := RefMessage
  ParseFiles := refParseFiles files
  NewMessageRegistryWithDefaults := ⟨true, []⟩
  AddFile := refAddFile
  Resolve := refResolve
  Base64ReadAll := refBase64ReadAll
  Unmarshal := refUnmarshal
  Marshal := refMarshal

/-- The message `Point` of the example in the documentation, with a nested
message type. -/
def pointType : MessageDescriptor :=
  .mk "geo.Point" [⟨"x", "x", 1, false⟩, ⟨"y", "y", 2, false⟩]
    [.mk "geo.Point.Label" [⟨"text_id", "textId", 1, false⟩] []]

/-- A message with a snake-case field and a required field. -/
def trackType : MessageDescriptor :=
  .mk "geo.Track" [⟨"point_count", "pointCount", 1, false⟩, ⟨"id", "id", 2, true⟩] []

/-- A schema file with two top-level messages and a service. -/
def geoProto : FileDescriptor :=
  { name := "geo.proto"
    messageTypes := [pointType, trackType]
    services := [⟨"geo.Locator"⟩] }

/-- A second schema file, without services. -/
def logProto : FileDescriptor :=
  { name := "log.proto"
    messageTypes := [.mk "log.Entry" [⟨"level", "level", 1, false⟩] []]
    services := [] }

/-! ## Vocabulary of the statements -/

/-- The text of a list of names printed one per line. -/
def lines : List String → String
  | [] => ""
  | n :: rest => n ++ "\n" ++ lines rest

/-- The fully-qualified names of the files, in load order. -/
def fileNames (fileDescs : List FileDescriptor) : List String :=
  fileDescs.map FileDescriptor.GetFullyQualifiedName

/-- The fully-qualified names of the top-level messages: files in load order,
the messages of a file in declaration order. -/
def messageNames : List FileDescriptor → List String
  | [] => []
  | fd :: rest =>
    fd.GetMessageTypes.map MessageDescriptor.GetFullyQualifiedName ++ messageNames rest

/-- The fully-qualified names of the services: files in load order, the
services of a file in declaration order. -/
def serviceNames : List FileDescriptor → List String
  | [] => []
  | fd :: rest =>
    fd.GetServices.map ServiceDescriptor.GetFullyQualifiedName ++ serviceNames rest

/-- The world after `text` has been written to standard output. -/
def World.write (w : World) (text : String) : World :=
  { w with stdout := w.stdout ++ text }

/-- The text of the usage error of `list`. -/
def listUsage : String := "specify one of \"files\", \"messages\" or \"services\""

/-- A text names a word when the word occurs in it. -/
def Names (text word : String) : Prop :=
  ∃ pre post : String, text = pre ++ word ++ post

/-- What `AddFile` is for: adding a file makes no name resolve that the file
does not declare; a name outside the file that did not resolve before does not
resolve afterwards. -/
def AddFileFrame (L : Lib) : Prop :=
  ∀ (r : L.Registry) (baseUrl : String) (fd : FileDescriptor) (n : String),
    n ∉ declaredNames fd → (∃ e, L.Resolve r n = .error e) →
      ∃ e, L.Resolve (L.AddFile r baseUrl fd) n = .error e

/-- The globals after `pb -F geo.proto` over the two reference schema files. -/
def geoGlobals : Globals (refLib [geoProto, logProto]) :=
  ⟨[geoProto], refAddFile ⟨true, []⟩ "" geoProto⟩

/-! ## Base64: the reference reader undoes the encoder -/

theorem b64Value_b64Char (n : Nat) (h : n < 64) : b64Value (b64Char n) = some n := by
  unfold b64Char b64Value
  split_ifs <;> first | omega | (congr 1; omega)

theorem b64Char_ne (n : Nat) :
    b64Char n ≠ 61 ∧ b64Char n ≠ 10 ∧ b64Char n ≠ 13 ∧ b64Char n < 256 := by
  unfold b64Char
  split_ifs <;> omega

/-- Every code of an encoding is an alphabet character or the pad. -/
theorem encodeCodes_mem (xs : List Nat) :
    ∀ c ∈ encodeCodes xs, c ≠ 10 ∧ c ≠ 13 ∧ c < 256 := by
  induction xs using encodeCodes.induct with
  | case1 => simp [encodeCodes]
  | case2 a =>
    intro c hc
    simp only [encodeCodes, List.mem_cons, List.mem_singleton, List.not_mem_nil, or_false] at hc
    rcases hc with rfl | rfl | rfl | rfl
    · exact (b64Char_ne _).2
    · exact (b64Char_ne _).2
    · decide
    · decide
  | case3 a b =>
    intro c hc
    simp only [encodeCodes, List.mem_cons, List.mem_singleton, List.not_mem_nil, or_false] at hc
    rcases hc with rfl | rfl | rfl | rfl
    · exact (b64Char_ne _).2
    · exact (b64Char_ne _).2
    · exact (b64Char_ne _).2
    · decide
  | case4 a b c rest ih =>
    intro d hd
    simp only [encodeCodes, List.mem_cons] at hd
    rcases hd with rfl | rfl | rfl | rfl | hd
    · exact (b64Char_ne _).2
    · exact (b64Char_ne _).2
    · exact (b64Char_ne _).2
    · exact (b64Char_ne _).2
    · exact ih d hd

theorem decodeCodes_encodeCodes (xs : List Nat) (h : ∀ x ∈ xs, x < 256) :
    decodeCodes (encodeCodes xs) = .ok xs := by
  induction xs using encodeCodes.induct with
  | case1 => simp [encodeCodes, decodeCodes]
  | case2 a =>
    have ha : a < 256 := h a (by simp)
    have h1 := b64Value_b64Char (a / 4) (by omega)
    have h2 := b64Value_b64Char (a % 4 * 16) (by omega)
    simp only [encodeCodes, decodeCodes, h1, h2, and_self, if_true]
    congr 2
    omega
  | case3 a b =>
    have ha : a < 256 := h a (by simp)
    have hb : b < 256 := h b (by simp)
    have h1 := b64Value_b64Char (a / 4) (by omega)
    have h2 := b64Value_b64Char (a % 4 * 16 + b / 16) (by omega)
    have h3 := b64Value_b64Char (b % 16 * 4) (by omega)
    have n3 := (b64Char_ne (b % 16 * 4)).1
    simp only [encodeCodes, decodeCodes, h1, h2, h3, n3, false_and, if_false, and_self, if_true]
    congr 2
    · omega
    · congr 1; omega
  | case4 a b c rest ih =>
    have ha : a < 256 := h a (by simp)
    have hb : b < 256 := h b (by simp)
    have hc : c < 256 := h c (by simp)
    have h1 := b64Value_b64Char (a / 4) (by omega)
    have h2 := b64Value_b64Char (a % 4 * 16 + b / 16) (by omega)
    have h3 := b64Value_b64Char (b % 16 * 4 + c / 64) (by omega)
    have h4 := b64Value_b64Char (c % 64) (by omega)
    have n3 := (b64Char_ne (b % 16 * 4 + c / 64)).1
    have n4 := (b64Char_ne (c % 64)).1
    have ih1 := ih (fun x hx => h x (by simp [hx]))
    simp only [encodeCodes, decodeCodes, h1, h2, h3, h4, n3, n4, false_and, if_false, ih1]
    congr 2
    · omega
    · congr 1
      · omega
      · congr 1; omega

/-- The reference base64 reader undoes the standard padded encoding. -/
theorem refBase64ReadAll_stdEncode (x : List Byte) :
    refBase64ReadAll (stdEncode x) = .ok x := by
  have hmem := encodeCodes_mem (x.map Fin.val)
  have hval : (stdEncode x).map Fin.val = encodeCodes (x.map Fin.val) := by
    unfold stdEncode
    rw [List.map_map]
    conv_rhs => rw [← List.map_id (encodeCodes (x.map Fin.val))]
    apply List.map_congr_left
    intro c hc
    have := (hmem c hc).2.2
    simp only [Function.comp_apply, Fin.ofNat, id]
    omega
  have hfilter : (encodeCodes (x.map Fin.val)).filter (fun c => c ≠ 10 ∧ c ≠ 13)
      = encodeCodes (x.map Fin.val) := by
    rw [List.filter_eq_self]
    intro c hc
    have := hmem c hc
    simp [this.1, this.2.1]
  have hdec := decodeCodes_encodeCodes (x.map Fin.val) (by
    intro c hc
    rw [List.mem_map] at hc
    obtain ⟨b, _, rfl⟩ := hc
    exact b.isLt)
  unfold refBase64ReadAll
  rw [hval, hfilter, hdec]
  simp only [List.map_map]
  congr 1
  conv_rhs => rw [← List.map_id x]
  apply List.map_congr_left
  intro b _
  apply Fin.ext
  simp only [Function.comp_apply, Fin.ofNat, id]
  omega

/-! ## `list` -/

theorem write_write (w : World) (a b : String) : (w.write a).write b = w.write (a ++ b) := by
  simp [World.write, String.append_assoc]

theorem write_empty (w : World) : w.write "" = w := by
  simp [World.write]

theorem foldl_Println {α : Type} (f : α → String) (xs : List α) (w : World) :
    xs.foldl (fun w x => Println (f x) w) w = w.write (lines (xs.map f)) := by
  induction xs generalizing w with
  | nil => simp [lines, write_empty]
  | cons x rest ih =>
    simp only [List.foldl_cons, List.map_cons, lines, ih]
    simp [Println, World.write, String.append_assoc]

theorem lines_append (xs ys : List String) : lines (xs ++ ys) = lines xs ++ lines ys := by
  induction xs with
  | nil => simp [lines]
  | cons x rest ih => simp [lines, ih, String.append_assoc]

theorem printFiles_eq (fileDescs : List FileDescriptor) (w : World) :
    fileDescs.foldl (fun w fd => Println fd.GetFullyQualifiedName w) w
      = w.write (lines (fileNames fileDescs)) :=
  foldl_Println _ fileDescs w

theorem printMessages_eq (fileDescs : List FileDescriptor) (w : World) :
    fileDescs.foldl
      (fun w fd => fd.GetMessageTypes.foldl (fun w mt => Println mt.GetFullyQualifiedName w) w) w
      = w.write (lines (messageNames fileDescs)) := by
  induction fileDescs generalizing w with
  | nil => simp [messageNames, lines, write_empty]
  | cons fd rest ih =>
    rw [List.foldl_cons, ih, foldl_Println, write_write, messageNames, lines_append]

theorem printServices_eq (fileDescs : List FileDescriptor) (w : World) :
    fileDescs.foldl
      (fun w fd => fd.GetServices.foldl (fun w svc => Println svc.GetFullyQualifiedName w) w) w
      = w.write (lines (serviceNames fileDescs)) := by
  induction fileDescs generalizing w with
  | nil => simp [serviceNames, lines, write_empty]
  | cons fd rest ih =>
    rw [List.foldl_cons, ih, foldl_Println, write_write, serviceNames, lines_append]

theorem listKey_files (fileDescs : List FileDescriptor) (k : String) (w : World)
    (hk : ToLower k = "file" ∨ ToLower k = "files") :
    listKey fileDescs k w = w.write (lines (fileNames fileDescs)) := by
  unfold listKey
  simp only [hk, if_true, printFiles_eq]

theorem listKey_messages (fileDescs : List FileDescriptor) (k : String) (w : World)
    (hk : ToLower k = "msg" ∨ ToLower k = "message" ∨ ToLower k = "messages") :
    listKey fileDescs k w = w.write (lines (messageNames fileDescs)) := by
  have h1 : ¬ (ToLower k = "file" ∨ ToLower k = "files") := by
    rcases hk with h | h | h <;> rw [h] <;> decide
  unfold listKey
  simp only [h1, hk, if_true, if_false, printMessages_eq]

theorem listKey_services (fileDescs : List FileDescriptor) (k : String) (w : World)
    (hk : ToLower k = "svc" ∨ ToLower k = "services") :
    listKey fileDescs k w = w.write (lines (serviceNames fileDescs)) := by
  have h1 : ¬ (ToLower k = "file" ∨ ToLower k = "files") := by
    rcases hk with h | h <;> rw [h] <;> decide
  have h2 : ¬ (ToLower k = "msg" ∨ ToLower k = "message" ∨ ToLower k = "messages") := by
    rcases hk with h | h <;> rw [h] <;> decide
  unfold listKey
  simp only [h1, h2, hk, if_true, if_false, printServices_eq]

theorem list_singleton (fileDescs : List FileDescriptor) (range : List String → List String)
    (hr : GoRange range) (k : String) (w : World) :
    list fileDescs range [k] w = (none, listKey fileDescs k w) := by
  have hm : argSet [k] = [k] := by simp [argSet, mapInsert]
  have hk : range [k] = [k] := List.perm_singleton.mp (hr [k])
  simp [list, hm, hk]

/-- C2: `list` with the one keyword `files`, `messages` or `services` returns
no error and appends to standard output exactly the names of that kind, one
per line: the files in load order, respectively the top-level messages or the
services in declaration order with the files visited in load order. -/
theorem list_single_keyword (fileDescs : List FileDescriptor)
    (range : List String → List String) (hr : GoRange range) (w : World) :
    list fileDescs range ["files"] w = (none, w.write (lines (fileNames fileDescs)))
    ∧ list fileDescs range ["messages"] w = (none, w.write (lines (messageNames fileDescs)))
    ∧ list fileDescs range ["services"] w = (none, w.write (lines (serviceNames fileDescs))) := by
  refine ⟨?_, ?_, ?_⟩
  · rw [list_singleton _ _ hr, listKey_files _ _ _ (by decide)]
  · rw [list_singleton _ _ hr, listKey_messages _ _ _ (by decide)]
  · rw [list_singleton _ _ hr, listKey_services _ _ _ (by decide)]

/-- Witness of C2 on two schema files, with the identity as map order. -/
theorem list_single_keyword_witness :
    GoRange id
    ∧ list [geoProto, logProto] id ["files"] ⟨[], ""⟩ = (none, ⟨[], "geo.proto\nlog.proto\n"⟩)
    ∧ list [geoProto, logProto] id ["messages"] ⟨[], ""⟩
        = (none, ⟨[], "geo.Point\ngeo.Track\nlog.Entry\n"⟩)
    ∧ list [geoProto, logProto] id ["services"] ⟨[], ""⟩ = (none, ⟨[], "geo.Locator\n"⟩) :=
  ⟨fun ks => List.Perm.refl ks,
    list_single_keyword [geoProto, logProto] id (fun ks => List.Perm.refl ks) ⟨[], ""⟩⟩

/-- C9: without arguments `list` returns the usage error, whose text names
`files`, `messages` and `services`, and leaves the streams untouched; with at
least one argument it returns no error. -/
theorem list_error_iff_no_args (fileDescs : List FileDescriptor)
    (range : List String → List String) (args : List String) (w : World) :
    list fileDescs range [] w = (some (.new listUsage), w)
    ∧ (PbError.new listUsage).Error = listUsage
    ∧ Names listUsage "\"files\"" ∧ Names listUsage "\"messages\"" ∧ Names listUsage "\"services\""
    ∧ ((list fileDescs range args w).1 = none ↔ args ≠ []) := by
  refine ⟨rfl, rfl, ⟨"specify one of ", ", \"messages\" or \"services\"", by decide⟩,
    ⟨"specify one of \"files\", ", " or \"services\"", by decide⟩,
    ⟨"specify one of \"files\", \"messages\" or ", "", by decide⟩, ?_⟩
  cases args with
  | nil => simp [list]
  | cons a rest => simp [list]

/-- Every key of the map is handled as the message category when each
argument is one of the message keywords. -/
theorem foldl_listKey_messages (fileDescs : List FileDescriptor) (ks : List String)
    (hks : ∀ k ∈ ks, ToLower k = "msg" ∨ ToLower k = "message" ∨ ToLower k = "messages")
    (w : World) :
    ks.foldl (fun w k => listKey fileDescs k w) w
      = w.write (lines ((List.replicate ks.length (messageNames fileDescs)).flatten)) := by
  induction ks generalizing w with
  | nil => simp [lines, write_empty]
  | cons k rest ih =>
    simp only [List.foldl_cons, List.length_cons, List.replicate_succ, List.flatten_cons]
    rw [listKey_messages _ _ _ (hks k (by simp)), ih (fun k hk => hks k (by simp [hk])),
      write_write, lines_append]

/-- C1: the arguments `msg messages` make two keys of the map, and each key
prints the message names: whatever order the map is visited in, `list`
appends the message names twice, not once. -/
theorem list_msg_messages_prints_twice (fileDescs : List FileDescriptor)
    (range : List String → List String) (hr : GoRange range) (w : World) :
    list fileDescs range ["msg", "messages"] w
      = (none, w.write (lines (messageNames fileDescs ++ messageNames fileDescs))) := by
  have hm : argSet ["msg", "messages"] = ["msg", "messages"] := by decide
  have hp := hr ["msg", "messages"]
  have hlen : (range ["msg", "messages"]).length = 2 := hp.length_eq
  have hks : ∀ k ∈ range ["msg", "messages"],
      ToLower k = "msg" ∨ ToLower k = "message" ∨ ToLower k = "messages" := by
    intro k hk
    have := hp.mem_iff.mp hk
    simp only [List.mem_cons, List.mem_singleton, List.not_mem_nil, or_false] at this
    rcases this with rfl | rfl
    · exact Or.inl (by decide)
    · exact Or.inr (Or.inr (by decide))
  simp only [list, List.length_cons, List.length_nil, hm]
  rw [if_neg (by decide), foldl_listKey_messages _ _ hks, hlen]
  simp [List.replicate]

/-- Witness of C1 on a schema file with two top-level messages: the names come
out twice for `msg messages` and once for `msg` alone. -/
theorem list_msg_messages_prints_twice_witness :
    GoRange id
    ∧ list [geoProto] id ["msg", "messages"] ⟨[], ""⟩
        = (none, ⟨[], "geo.Point\ngeo.Track\ngeo.Point\ngeo.Track\n"⟩)
    ∧ list [geoProto] id ["msg"] ⟨[], ""⟩ = (none, ⟨[], "geo.Point\ngeo.Track\n"⟩) :=
  ⟨fun ks => List.Perm.refl ks,
    list_msg_messages_prints_twice [geoProto] id (fun ks => List.Perm.refl ks) ⟨[], ""⟩,
    by decide⟩

/-! ## `decode` -/

theorem decode_resolve_error (L : Lib) (g : Globals L) (inFlag name : String)
    (rest : List String) (w : World) (e : String)
    (hres : L.Resolve g.msgReg name = .error e) :
    decode L g inFlag (name :: rest) w
      = (some (.wrap (.ext e) "failed to resolve message"), w) := by
  simp only [decode, hres]

theorem decode_resolved (L : Lib) (g : Globals L) (inFlag name : String)
    (rest : List String) (w : World) (msg msg1 : L.Message) (input : List Byte)
    (hres : L.Resolve g.msgReg name = .ok msg)
    (hread : readInput L inFlag w.stdin = .ok input)
    (hun : L.Unmarshal input msg = .ok msg1) :
    decode L g inFlag (name :: rest) w
      = match (L.Marshal decodeMarshaler msg1).2 with
        | some e =>
          (some (.wrap (.ext e) "failed to marshal message"),
            ⟨[], w.stdout ++ (L.Marshal decodeMarshaler msg1).1⟩)
        | none => (none, ⟨[], w.stdout ++ (L.Marshal decodeMarshaler msg1).1 ++ "\n"⟩) := by
  simp only [decode, hres, hread, hun, Println, String.append_empty]

theorem initMessageRegistry_geo :
    initMessageRegistry (refLib [geoProto, logProto]) [] ["geo.proto"] = .ok geoGlobals := by
  rfl

/-- C7: when the name does not resolve, `decode` returns the resolve error
wrapped, whatever the `--in` flag is, and the world is the one it started
from: nothing read from standard input, nothing written to standard output. -/
theorem decode_resolve_failure (L : Lib) (g : Globals L) (inFlag name : String)
    (rest : List String) (w : World) (e : String)
    (hres : L.Resolve g.msgReg name = .error e) :
    decode L g inFlag (name :: rest) w
        = (some (.wrap (.ext e) "failed to resolve message"), w)
    ∧ (decode L g inFlag (name :: rest) w).2.stdin = w.stdin
    ∧ (decode L g inFlag (name :: rest) w).2.stdout = w.stdout := by
  rw [decode_resolve_error L g inFlag name rest w e hres]
  exact ⟨rfl, rfl, rfl⟩

/-- Witness of C7: `log.Entry` is not loaded by `pb -F geo.proto`. -/
theorem decode_resolve_failure_witness :
    (refLib [geoProto, logProto]).Resolve geoGlobals.msgReg "log.Entry"
        = .error "unknown message type: log.Entry"
    ∧ decode (refLib [geoProto, logProto]) geoGlobals "base64" ["log.Entry"] ⟨[8, 1], "out"⟩
        = (some (.wrap (.ext "unknown message type: log.Entry") "failed to resolve message"),
            ⟨[8, 1], "out"⟩) :=
  ⟨rfl, (decode_resolve_failure (refLib [geoProto, logProto]) geoGlobals "base64" "log.Entry" []
    ⟨[8, 1], "out"⟩ "unknown message type: log.Entry" rfl).1⟩

/-- C8: when the bytes read from standard input do not unmarshal into the
resolved message, `decode` returns the unmarshal error wrapped and standard
output is what it was before the call. -/
theorem decode_unmarshal_failure (L : Lib) (g : Globals L) (inFlag name : String)
    (rest : List String) (w : World) (msg : L.Message) (input : List Byte) (e : String)
    (hres : L.Resolve g.msgReg name = .ok msg)
    (hread : readInput L inFlag w.stdin = .ok input)
    (hun : L.Unmarshal input msg = .error e) :
    (decode L g inFlag (name :: rest) w).1
        = some (.wrap (.ext e) "failed to unmarshal message")
    ∧ (decode L g inFlag (name :: rest) w).2.stdout = w.stdout := by
  simp only [decode, hres, hread, hun, and_self]

/-- Witness of C8: a field tag without its value does not unmarshal. -/
theorem decode_unmarshal_failure_witness :
    (decode (refLib [geoProto, logProto]) geoGlobals "bin" ["geo.Point"] ⟨[8, 1, 16], "out"⟩).1
        = some (.wrap (.ext "unexpected EOF") "failed to unmarshal message")
    ∧ (decode (refLib [geoProto, logProto]) geoGlobals "bin" ["geo.Point"]
        ⟨[8, 1, 16], "out"⟩).2.stdout = "out" :=
  decode_unmarshal_failure (refLib [geoProto, logProto]) geoGlobals "bin" "geo.Point" []
    ⟨[8, 1, 16], "out"⟩ (.dynamic pointType []) [8, 1, 16] "unexpected EOF" rfl rfl rfl

/-- C10: a value of the `--in` flag other than the exact string `base64`
makes `decode` read standard input as it is, and the whole run is the run
with `--in bin`. -/
theorem decode_other_flag_is_bin (L : Lib) (g : Globals L) (inFlag : String)
    (args : List String) (w : World) (hflag : inFlag ≠ "base64") :
    readInput L inFlag w.stdin = .ok w.stdin
    ∧ decode L g inFlag args w = decode L g "bin" args w := by
  have h1 : readInput L inFlag w.stdin = .ok w.stdin := by simp [readInput, hflag]
  have h2 : readInput L "bin" w.stdin = .ok w.stdin := by
    simp only [readInput]; rw [if_neg (by decide)]
  refine ⟨h1, ?_⟩
  cases args with
  | nil => rfl
  | cons name rest => simp only [decode, h1, h2]

/-- Witness of C10 with the flag in upper case: the base64 text is not
decoded, it is handed to the unmarshaler as it stands. -/
theorem decode_other_flag_is_bin_witness :
    "BASE64" ≠ "base64"
    ∧ readInput (refLib [geoProto, logProto]) "BASE64" (stdEncode [8, 1, 16, 2])
        = .ok (stdEncode [8, 1, 16, 2])
    ∧ decode (refLib [geoProto, logProto]) geoGlobals "BASE64" ["geo.Point"]
        ⟨stdEncode [8, 1, 16, 2], ""⟩
      = decode (refLib [geoProto, logProto]) geoGlobals "bin" ["geo.Point"]
        ⟨stdEncode [8, 1, 16, 2], ""⟩ :=
  ⟨by decide, decode_other_flag_is_bin (refLib [geoProto, logProto]) geoGlobals "BASE64"
    ["geo.Point"] ⟨stdEncode [8, 1, 16, 2], ""⟩ (by decide)⟩

/-- C3: with a base64 reader that undoes the standard padded encoding,
`decode --in base64` on the encoding of `x` ends as `decode --in bin` on `x`
does: the same error or none, and the same text on standard output. -/
theorem decode_base64_eq_bin (L : Lib)
    (hb64 : ∀ x : List Byte, L.Base64ReadAll (stdEncode x) = .ok x)
    (g : Globals L) (args : List String) (x : List Byte) (out : String) :
    (decode L g "base64" args ⟨stdEncode x, out⟩).1 = (decode L g "bin" args ⟨x, out⟩).1
    ∧ (decode L g "base64" args ⟨stdEncode x, out⟩).2.stdout
        = (decode L g "bin" args ⟨x, out⟩).2.stdout := by
  have h1 : readInput L "base64" (stdEncode x) = .ok x := by simp [readInput, hb64]
  have h2 : readInput L "bin" x = .ok x := by
    simp only [readInput]; rw [if_neg (by decide)]
  cases args with
  | nil => exact ⟨rfl, rfl⟩
  | cons name rest =>
    simp only [decode, h1, h2]
    cases L.Resolve g.msgReg name with
    | error e => exact ⟨rfl, rfl⟩
    | ok msg => exact ⟨rfl, rfl⟩

/-- Witness of C3: the point `x = 1, y = 2`, given as `CAEQAg==` and as the
four bytes it encodes. -/
theorem decode_base64_eq_bin_witness :
    stdEncode [8, 1, 16, 2] = [67, 65, 69, 81, 65, 103, 61, 61]
    ∧ (decode (refLib [geoProto, logProto]) geoGlobals "base64" ["geo.Point"]
        ⟨[67, 65, 69, 81, 65, 103, 61, 61], ""⟩).2.stdout = "\x7b\n  \"x\": 1,\n  \"y\": 2\n\x7d\n"
    ∧ (decode (refLib [geoProto, logProto]) geoGlobals "base64" ["geo.Point"]
        ⟨stdEncode [8, 1, 16, 2], ""⟩).1
      = (decode (refLib [geoProto, logProto]) geoGlobals "bin" ["geo.Point"]
        ⟨[8, 1, 16, 2], ""⟩).1
    ∧ (decode (refLib [geoProto, logProto]) geoGlobals "base64" ["geo.Point"]
        ⟨stdEncode [8, 1, 16, 2], ""⟩).2.stdout
      = (decode (refLib [geoProto, logProto]) geoGlobals "bin" ["geo.Point"]
        ⟨[8, 1, 16, 2], ""⟩).2.stdout :=
  ⟨by decide, by decide,
    decode_base64_eq_bin (refLib [geoProto, logProto]) refBase64ReadAll_stdEncode geoGlobals
      ["geo.Point"] [8, 1, 16, 2] ""⟩

/-- C4 fails as stated: `google.protobuf.Duration` resolves and the six bytes
`10 80 94 eb dc 03` (nanos = 1000000000) unmarshal, yet `decode` returns an
error, because a duration with that many nanos has no JSON form. -/
theorem decode_bin_marshal_error :
    (refLib [geoProto, logProto]).Resolve geoGlobals.msgReg "google.protobuf.Duration"
        = .ok (.duration 0 0)
    ∧ (refLib [geoProto, logProto]).Unmarshal [16, 128, 148, 235, 220, 3] (.duration 0 0)
        = .ok (.duration 0 1000000000)
    ∧ (∃ e, (decode (refLib [geoProto, logProto]) geoGlobals "bin" ["google.protobuf.Duration"]
          ⟨[16, 128, 148, 235, 220, 3], ""⟩).1
        = some (.wrap (.ext e) "failed to marshal message"))
    ∧ (decode (refLib [geoProto, logProto]) geoGlobals "bin" ["google.protobuf.Duration"]
        ⟨[16, 128, 148, 235, 220, 3], ""⟩).1 ≠ none :=
  ⟨rfl, rfl, ⟨"ns out of range (-1000000000, 1000000000)", by decide⟩, by decide⟩

/-- C4, amended: when the name resolves, the whole of standard input
unmarshals and the marshaler reports no error, `decode --in bin` returns no
error, has read all of standard input, and has appended to standard output
the JSON text the two-space marshaler wrote for the unmarshaled message,
then one newline, and nothing else. -/
theorem decode_bin_success (L : Lib) (g : Globals L) (name : String) (rest : List String)
    (x : List Byte) (out : String) (msg msg1 : L.Message)
    (hres : L.Resolve g.msgReg name = .ok msg)
    (hun : L.Unmarshal x msg = .ok msg1)
    (hms : (L.Marshal decodeMarshaler msg1).2 = none) :
    decodeMarshaler.Indent = "  "
    ∧ decode L g "bin" (name :: rest) ⟨x, out⟩
        = (none, ⟨[], out ++ (L.Marshal decodeMarshaler msg1).1 ++ "\n"⟩) := by
  have hread : readInput L "bin" (World.mk x out).stdin = .ok x := by
    simp only [readInput]; rw [if_neg (by decide)]
  refine ⟨rfl, ?_⟩
  rw [decode_resolved L g "bin" name rest ⟨x, out⟩ msg msg1 x hres hread hun, hms]

/-- Witness of C4, amended: the example of the documentation, `Point` with
`x = 1` and `y = 2`. -/
theorem decode_bin_success_witness :
    decode (refLib [geoProto, logProto]) geoGlobals "bin" ["geo.Point"] ⟨[8, 1, 16, 2], ""⟩
      = (none, ⟨[], "\x7b\n  \"x\": 1,\n  \"y\": 2\n\x7d\n"⟩) :=
  (decode_bin_success (refLib [geoProto, logProto]) geoGlobals "geo.Point" [] [8, 1, 16, 2] ""
    (.dynamic pointType []) (.dynamic pointType [(1, 1), (2, 2)]) rfl rfl rfl).2

/-- C5 fails as stated: the marshaler of `decode` has `OrigName` unset, and
the field declared `point_count` comes out under the key `pointCount`. -/
theorem decode_writes_json_names :
    decodeMarshaler.OrigName = false
    ∧ trackType.GetFields.map FieldDescriptor.name = ["point_count", "id"]
    ∧ decode (refLib [geoProto, logProto]) geoGlobals "bin" ["geo.Track"] ⟨[8, 1, 16, 2], ""⟩
        = (none, ⟨[], "\x7b\n  \"pointCount\": 1,\n  \"id\": 2\n\x7d\n"⟩) :=
  ⟨rfl, rfl, by decide⟩

/-- C5, amended: the marshaler `decode` configures has a two-space indent and
every other option at its zero value, `OrigName` included, so that a field is
written under its JSON name; the text `decode` appends to standard output is
what the marshaler with exactly this configuration writes for the decoded
message, followed by a newline when it reports no error. -/
theorem decode_marshaler_config (L : Lib) (g : Globals L) (inFlag name : String)
    (rest : List String) (w : World) (msg msg1 : L.Message) (input : List Byte)
    (hres : L.Resolve g.msgReg name = .ok msg)
    (hread : readInput L inFlag w.stdin = .ok input)
    (hun : L.Unmarshal input msg = .ok msg1) :
    decodeMarshaler = ⟨false, false, false, "  "⟩
    ∧ (∀ fd : FieldDescriptor, jsonKey decodeMarshaler fd = fd.jsonName)
    ∧ (decode L g inFlag (name :: rest) w).2.stdout
        = w.stdout ++ (L.Marshal ⟨false, false, false, "  "⟩ msg1).1
          ++ (if (L.Marshal ⟨false, false, false, "  "⟩ msg1).2 = none then "\n" else "") := by
  refine ⟨rfl, fun fd => rfl, ?_⟩
  rw [decode_resolved L g inFlag name rest w msg msg1 input hres hread hun]
  have hcfg : decodeMarshaler = ⟨false, false, false, "  "⟩ := rfl
  rw [hcfg]
  cases (L.Marshal ⟨false, false, false, "  "⟩ msg1).2 with
  | none => simp
  | some e => simp

/-- Witness of C5, amended, on the message with the snake-case field. -/
theorem decode_marshaler_config_witness :
    (decode (refLib [geoProto, logProto]) geoGlobals "bin" ["geo.Track"]
        ⟨[8, 1, 16, 2], ""⟩).2.stdout
      = "" ++ ((refLib [geoProto, logProto]).Marshal ⟨false, false, false, "  "⟩
            (.dynamic trackType [(1, 1), (2, 2)])).1
          ++ (if ((refLib [geoProto, logProto]).Marshal ⟨false, false, false, "  "⟩
            (.dynamic trackType [(1, 1), (2, 2)])).2 = none then "\n" else "") :=
  (decode_marshaler_config (refLib [geoProto, logProto]) geoGlobals "bin" "geo.Track" []
    ⟨[8, 1, 16, 2], ""⟩ (.dynamic trackType []) (.dynamic trackType [(1, 1), (2, 2)]) [8, 1, 16, 2]
    rfl rfl rfl).2.2

/-! ## The registry -/

/-- Adding files one after the other keeps a name unresolved that none of the
files declares. -/
theorem foldl_AddFile_frame (L : Lib) (hL : AddFileFrame L) (fds : List FileDescriptor)
    (r : L.Registry) (n : String) (hdecl : ∀ fd ∈ fds, n ∉ declaredNames fd)
    (h : ∃ e, L.Resolve r n = .error e) :
    ∃ e, L.Resolve (fds.foldl (fun r fd => L.AddFile r "" fd) r) n = .error e := by
  induction fds generalizing r with
  | nil => exact h
  | cons fd rest ih =>
    exact ih (L.AddFile r "" fd) (fun fd1 h1 => hdecl fd1 (by simp [h1]))
      (hL r "" fd n (hdecl fd (by simp)) h)

/-- Looking a name up among the message types of a file finds nothing when the
file does not declare the name. -/
theorem lookup_declared_none (fd : FileDescriptor) (n : String)
    (hn : n ∉ declaredNames fd) :
    List.lookup n
      ((allMessageTypes fd.messageTypes).map
        (fun md => (md.GetFullyQualifiedName, md))).reverse = none := by
  rw [List.lookup_eq_none_iff]
  intro p hp
  simp only [List.mem_reverse, List.mem_map] at hp
  obtain ⟨md, hmd, rfl⟩ := hp
  simp only [bne_iff_ne, ne_eq]
  intro hEq
  apply hn
  simp only [declaredNames, List.mem_map]
  exact ⟨md, hmd, hEq.symm⟩

/-- The reference registry has the frame property of `AddFile`: for a name the
file does not declare, resolving is what it was before. -/
theorem refLib_addFileFrame (files : List FileDescriptor) :
    AddFileFrame (refLib files) := by
  intro r baseUrl fd n hn h
  have hsame : refResolve (refAddFile r baseUrl fd) n = refResolve r n := by
    simp only [refResolve, refAddFile, List.lookup_append, lookup_declared_none fd n hn,
      Option.none_or]
  obtain ⟨e, he⟩ := h
  exact ⟨e, hsame.trans he⟩

/-- C6 fails as stated: no parsed file declares `google.protobuf.Duration`,
yet the registry created with defaults resolves it, and `decode` returns no
resolve error for it. -/
theorem resolve_default_type_undeclared :
    initMessageRegistry (refLib [geoProto, logProto]) [] ["geo.proto"] = .ok geoGlobals
    ∧ (∀ fd ∈ geoGlobals.fileDescs, "google.protobuf.Duration" ∉ declaredNames fd)
    ∧ (refLib [geoProto, logProto]).Resolve geoGlobals.msgReg "google.protobuf.Duration"
        = .ok (.duration 0 0)
    ∧ (decode (refLib [geoProto, logProto]) geoGlobals "bin" ["google.protobuf.Duration"]
        ⟨[8, 1], ""⟩).1 = none :=
  ⟨rfl, by decide, rfl, by decide⟩

/-- C6, amended: the registry built by `initMessageRegistry` is the registry
created with defaults with the parsed files added.  For every name that no
parsed file declares and that the registry created with defaults does not
resolve by itself, resolving fails, and `decode` with that name returns the
resolve error wrapped and leaves the world as it was: no message instance is
produced. -/
theorem undeclared_nondefault_name_fails (L : Lib) (hL : AddFileFrame L)
    (importPaths importFiles : List String) (g : Globals L)
    (hinit : initMessageRegistry L importPaths importFiles = .ok g) (name : String)
    (hdecl : ∀ fd ∈ g.fileDescs, name ∉ declaredNames fd)
    (hdef : ∃ e, L.Resolve L.NewMessageRegistryWithDefaults name = .error e) :
    L.ParseFiles importPaths importFiles = .ok g.fileDescs
    ∧ ∃ e, L.Resolve g.msgReg name = .error e
      ∧ ∀ inFlag rest w, decode L g inFlag (name :: rest) w
          = (some (.wrap (.ext e) "failed to resolve message"), w) := by
  unfold initMessageRegistry at hinit
  cases hp : L.ParseFiles importPaths importFiles with
  | error e => rw [hp] at hinit; cases hinit
  | ok fds =>
    rw [hp] at hinit
    simp only [Except.ok.injEq] at hinit
    subst hinit
    refine ⟨rfl, ?_⟩
    obtain ⟨e, he⟩ := foldl_AddFile_frame L hL fds _ name hdecl hdef
    exact ⟨e, he, fun inFlag rest w => decode_resolve_error L _ inFlag name rest w e he⟩

/-- Witness of C6, amended, after `pb -F geo.proto`: `log.Entry` is declared
in a file that was not parsed and is not a default type, so it does not
resolve. -/
theorem undeclared_nondefault_name_fails_witness :
    AddFileFrame (refLib [geoProto, logProto])
    ∧ initMessageRegistry (refLib [geoProto, logProto]) [] ["geo.proto"] = .ok geoGlobals
    ∧ (∀ fd ∈ geoGlobals.fileDescs, "log.Entry" ∉ declaredNames fd)
    ∧ (∃ e, (refLib [geoProto, logProto]).Resolve
        (refLib [geoProto, logProto]).NewMessageRegistryWithDefaults "log.Entry" = .error e)
    ∧ ∃ e, (refLib [geoProto, logProto]).Resolve geoGlobals.msgReg "log.Entry" = .error e
      ∧ ∀ inFlag rest w,
          decode (refLib [geoProto, logProto]) geoGlobals inFlag ("log.Entry" :: rest) w
            = (some (.wrap (.ext e) "failed to resolve message"), w) :=
  ⟨refLib_addFileFrame _, rfl, by decide, ⟨"unknown message type: log.Entry", rfl⟩,
    (undeclared_nondefault_name_fails (refLib [geoProto, logProto]) (refLib_addFileFrame _)
      [] ["geo.proto"] geoGlobals rfl "log.Entry" (by decide)
      ⟨"unknown message type: log.Entry", rfl⟩).2⟩

end Pb
